import Mathlib

/-!
Verification of the pseudo-Voigt peak-fitting script `SMfit.py`.

The core numerical functions of the script are embedded shallowly over `ℝ`:
`pV` (single pseudo-Voigt profile), `fitting_function` (sum of profiles),
`set_size` (characteristic scale), the bounds arrays built for `curve_fit`,
and the standard-error extraction `fitting_err`.  numpy arrays are modelled
as `List ℝ`, elementwise array arithmetic as `List.map`/pointwise functions,
and Python floats as real numbers.
-/

namespace SMfit

noncomputable section

/-- Constant `initial_GaussToLoretnz_ratio = 0.5` (SMfit.py line 31), the
default value of the `factor` argument of `pV`. -/
def initial_GaussToLoretnz_ratio : ℝ := 0.5

/-- Inner function `Gauss(x, w)` of `pV` (SMfit.py lines 47-49); it reads `x0`
from the enclosing scope, made an explicit first argument here. -/
def Gauss (x0 x w : ℝ) : ℝ :=
  (2 / w) * Real.sqrt (Real.log 2 / Real.pi) *
    Real.exp (-(4 * Real.log 2 / w ^ 2) * (x - x0) ^ 2)

/-- Inner function `Lorentz(x, w)` of `pV` (SMfit.py lines 51-53); `x0` again
made explicit. -/
def Lorentz (x0 x w : ℝ) : ℝ :=
  (1 / Real.pi) * (w / 2) / ((x - x0) ^ 2 + (w / 2) ^ 2)

/-- Normalization `intensity` computed inside `pV` (SMfit.py lines 55-56). -/
def intensity (h w factor : ℝ) : ℝ :=
  h * Real.pi * (w / 2) / (1 + factor * (Real.sqrt (Real.pi * Real.log 2) - 1))

/-- Pseudo-Voigt profile `pV(x, h, x0, w, factor)` (SMfit.py lines 34-59),
evaluated at a single point `x`. -/
def pV (x h x0 w factor : ℝ) : ℝ :=
  intensity h w factor * (factor * Gauss x0 x w + (1 - factor) * Lorentz x0 x w)

/-- Call of `pV` with a positional argument list of length at most 4, as
Python's `pV(x, *params[i:i+4])` does: missing trailing arguments take the
declared defaults `h=30`, `x0=0`, `w=10`,
`factor=initial_GaussToLoretnz_ratio` (SMfit.py line 34). -/
def pV_call (x : ℝ) : List ℝ → ℝ
  | [] => pV x 30 0 10 initial_GaussToLoretnz_ratio
  | [h] => pV x h 0 10 initial_GaussToLoretnz_ratio
  | [h, x0] => pV x h x0 10 initial_GaussToLoretnz_ratio
  | [h, x0, w] => pV x h x0 w initial_GaussToLoretnz_ratio
  | h :: x0 :: w :: factor :: _ => pV x h x0 w factor

/-- Multi-peak model `fitting_function(x, *params)` (SMfit.py lines 62-73) at a
single evaluation point: the loop `for i in range(0, len(params), 4)` adds
`pV(x, *params[i:i+4])` to a zero accumulator, so a trailing group of fewer
than four parameters is passed to `pV` as-is, with the remaining arguments
defaulted. -/
def fitting_function (x : ℝ) : List ℝ → ℝ
  | h :: x0 :: w :: factor :: rest => pV x h x0 w factor + fitting_function x rest
  | [] => 0
  | args => pV_call x args

/-- Vectorized `fitting_function`: numpy evaluates the model elementwise over
the array `x` (the accumulator `np.zeros_like(x)` has the shape of `x` and
`result += pV(x, ...)` is elementwise), so the result is the pointwise model
mapped over the input points. -/
def fitting_function_vec (xs : List ℝ) (params : List ℝ) : List ℝ :=
  xs.map fun x => fitting_function x params

/-- Helper `set_size(variable, rapport=70)` (SMfit.py lines 100-101): the data
range divided by `rapport`; `variable.max()` and `variable.min()` are the two
real arguments here. -/
def set_size (variable_max variable_min rapport : ℝ) : ℝ :=
  (variable_max - variable_min) / rapport

/-- Upper-bound array (SMfit.py lines 305-328): index `i % 4 = 0` holds a
height bound `A*1.32`, `i % 4 = 1` a center bound `shift + 2*x_size`,
`i % 4 = 2` a width bound `width*10`, `i % 4 = 3` the shape-ratio bound `1`.
The `np.inf` initialisation is overwritten at every index by the four strided
assignments, so it never survives. -/
def upper_bounds (x_size : ℝ) (params : List ℝ) : List ℝ :=
  params.mapIdx fun i A =>
    if i % 4 = 0 then A * 1.32
    else if i % 4 = 1 then A + 2 * x_size
    else if i % 4 = 2 then A * 10
    else 1

/-- Lower-bound array (SMfit.py lines 306-329): heights `A*0.75`, centers
`shift - 2*x_size`, widths `width*0.5`, shape ratios `0`. -/
def lower_bounds (x_size : ℝ) (params : List ℝ) : List ℝ :=
  params.mapIdx fun i A =>
    if i % 4 = 0 then A * 0.75
    else if i % 4 = 1 then A - 2 * x_size
    else if i % 4 = 2 then A * 0.5
    else 0

/-- Diagonal of a square matrix, as `np.diag(b)` on SMfit.py line 340. -/
def np_diag (b : ℕ → ℕ → ℝ) : ℕ → ℝ := fun j => b j j

/-- Standard errors `fitting_err = np.sqrt(np.diag(b))` (SMfit.py line 340),
where `b` is the covariance matrix returned by the optimizer. -/
def fitting_err (b : ℕ → ℕ → ℝ) : ℕ → ℝ := fun j => Real.sqrt (np_diag b j)

/-- Value of the `absolute_sigma` keyword the script passes to `curve_fit`
(SMfit.py line 339): `False`, so the covariance estimate folds in the
residual variance. -/
def fit_absolute_sigma : Bool := false

/-- Predicate: every entry at an index `i` with `i % 4 = 2` (a width slot of
the flattened parameter vector) is strictly positive. -/
def widths_positive (p : List ℝ) : Prop :=
  ∀ i : ℕ, ∀ hi : i < p.length, i % 4 = 2 → 0 < p.get ⟨i, hi⟩

/-- Gaussian of the specification (spec 4.1):
`(2/w)·√(ln2/π)·exp(−(4·ln2/w²)·(x−x0)²)`. -/
def Gaussian_spec (x x0 w : ℝ) : ℝ :=
  (2 / w) * Real.sqrt (Real.log 2 / Real.pi) *
    Real.exp (-(4 * Real.log 2 / w ^ 2) * (x - x0) ^ 2)

/-- Lorentzian of the specification (spec 4.1):
`(1/π)·(w/2) / ((x−x0)² + (w/2)²)`. -/
def Lorentzian_spec (x x0 w : ℝ) : ℝ :=
  (1 / Real.pi) * (w / 2) / ((x - x0) ^ 2 + (w / 2) ^ 2)

/-- Intensity of the specification (spec 4.1):
`h·π·(w/2) / (1 + factor·(√(π·ln2) − 1))`. -/
def intensity_spec (h w factor : ℝ) : ℝ :=
  h * Real.pi * (w / 2) / (1 + factor * (Real.sqrt (Real.pi * Real.log 2) - 1))

/-- C1: for every real `h`, `x0`, `factor`, every width `w > 0` and every
evaluation point `x`, `pV(x, h, x0, w, factor)` equals
`intensity · (factor·Gaussian(x) + (1−factor)·Lorentzian(x))` with the
Gaussian, Lorentzian and intensity exactly as the specification writes them. -/
theorem pV_eq_spec_combination (x h x0 w factor : ℝ) (hw : 0 < w) :
    pV x h x0 w factor =
      intensity_spec h w factor *
        (factor * Gaussian_spec x x0 w + (1 - factor) * Lorentzian_spec x x0 w) :=
  rfl

/-- Witness for C1 at `x = 1`, `h = 2`, `x0 = 0`, `w = 3`, `factor = 1/2`. -/
theorem pV_eq_spec_combination_witness :
    (0 : ℝ) < 3 ∧
      pV 1 2 0 3 (1 / 2) =
        intensity_spec 2 3 (1 / 2) *
          ((1 / 2) * Gaussian_spec 1 0 3 + (1 - 1 / 2) * Lorentzian_spec 1 0 3) :=
  ⟨by norm_num, pV_eq_spec_combination 1 2 0 3 (1 / 2) (by norm_num)⟩

/-- C6: for every `h`, `x0` and width `w > 0`, the profile evaluated at its
center `x = x0` equals `h`, both for `factor = 0` (pure-Lorentz weighting) and
for `factor = 1` (pure-Gauss weighting). -/
theorem pV_at_center (h x0 w : ℝ) (hw : 0 < w) :
    pV x0 h x0 w 0 = h ∧ pV x0 h x0 w 1 = h := by
  have hπ : (0 : ℝ) < Real.pi := Real.pi_pos
  have hl : (0 : ℝ) < Real.log 2 := Real.log_pos one_lt_two
  have hw' : w ≠ 0 := ne_of_gt hw
  have hπ' : Real.pi ≠ 0 := ne_of_gt hπ
  constructor
  · simp only [pV, intensity, Gauss, Lorentz, sub_self, zero_mul, add_zero,
      mul_zero, zero_add, sub_zero, one_mul, ne_eq, OfNat.ofNat_ne_zero,
      not_false_eq_true, zero_pow]
    field_simp
    ring
  · have hsπ : Real.sqrt Real.pi ≠ 0 := ne_of_gt (Real.sqrt_pos.mpr hπ)
    have hsl : Real.sqrt (Real.log 2) ≠ 0 := ne_of_gt (Real.sqrt_pos.mpr hl)
    have hππ : Real.sqrt Real.pi * Real.sqrt Real.pi = Real.pi :=
      Real.mul_self_sqrt hπ.le
    simp only [pV, intensity, Gauss, Lorentz, sub_self, one_mul, sub_zero,
      mul_zero, zero_mul, add_zero, ne_eq, OfNat.ofNat_ne_zero,
      not_false_eq_true, zero_pow, neg_zero, Real.exp_zero, mul_one]
    rw [Real.sqrt_div hl.le, Real.sqrt_mul hπ.le]
    have hden : 1 + (Real.sqrt Real.pi * Real.sqrt (Real.log 2) - 1) =
        Real.sqrt Real.pi * Real.sqrt (Real.log 2) := by ring
    rw [hden]
    field_simp
    linear_combination (-2 : ℝ) * h * w * Real.sqrt (Real.log 2) * hππ

/-- Witness for C6 at `h = 2`, `x0 = 5`, `w = 1`. -/
theorem pV_at_center_witness :
    (0 : ℝ) < 1 ∧ (pV 5 2 5 1 0 = 2 ∧ pV 5 2 5 1 1 = 2) :=
  ⟨by norm_num, pV_at_center 2 5 1 (by norm_num)⟩

/-- Helper: `fitting_function` distributes over concatenation when the first
vector consists of complete quadruples. -/
theorem fitting_function_append (x : ℝ) :
    ∀ p1 : List ℝ, p1.length % 4 = 0 → ∀ p2 : List ℝ,
      fitting_function x (p1 ++ p2) = fitting_function x p1 + fitting_function x p2
  | [], _, p2 => by simp [fitting_function]
  | [a], h, _ => by simp [List.length] at h
  | [a, b], h, _ => by simp [List.length] at h
  | [a, b, c], h, _ => by simp [List.length] at h
  | a :: b :: c :: d :: rest, h, p2 => by
      have h' : rest.length % 4 = 0 := by
        simp only [List.length_cons] at h
        omega
      simp only [List.cons_append, fitting_function, List.append_eq]
      rw [fitting_function_append x rest h' p2]
      ring

/-- C7: for every evaluation point and every two valid parameter vectors
(lengths multiples of 4, widths positive), the multi-peak model of the
concatenation is the sum of the two models. -/
theorem fitting_function_additive (x : ℝ) (p1 p2 : List ℝ)
    (h1 : p1.length % 4 = 0) (h2 : p2.length % 4 = 0)
    (hw1 : widths_positive p1) (hw2 : widths_positive p2) :
    fitting_function x (p1 ++ p2) =
      fitting_function x p1 + fitting_function x p2 :=
  fitting_function_append x p1 h1 p2

/-- Witness for C7 with `p1 = [1, 0, 1, 1/2]`, `p2 = [2, 3, 4, 1]`, `x = 0`. -/
theorem fitting_function_additive_witness :
    (([1, 0, 1, 1/2] : List ℝ).length % 4 = 0 ∧
        ([2, 3, 4, 1] : List ℝ).length % 4 = 0 ∧
        widths_positive [1, 0, 1, 1/2] ∧ widths_positive [2, 3, 4, 1]) ∧
      fitting_function 0 (([1, 0, 1, 1/2] : List ℝ) ++ [2, 3, 4, 1]) =
        fitting_function 0 [1, 0, 1, 1/2] + fitting_function 0 [2, 3, 4, 1] := by
  have hw1 : widths_positive [1, 0, 1, (1/2 : ℝ)] := by
    intro i hi h2
    simp only [List.length_cons, List.length_nil] at hi
    interval_cases i <;> simp_all <;> norm_num
  have hw2 : widths_positive [2, 3, 4, (1 : ℝ)] := by
    intro i hi h2
    simp only [List.length_cons, List.length_nil] at hi
    interval_cases i <;> simp_all <;> norm_num
  exact ⟨⟨by norm_num, by norm_num, hw1, hw2⟩,
    fitting_function_additive 0 _ _ (by norm_num) (by norm_num) hw1 hw2⟩

/-- C8: the multi-peak model of the empty parameter vector is the zero-filled
sequence of the same length as the input point sequence. -/
theorem fitting_function_vec_zero_peaks (xs : List ℝ) :
    fitting_function_vec xs [] = List.replicate xs.length 0 := by
  simp [fitting_function_vec, fitting_function]

/-- Helper: appending the missing default arguments
`h=30, x0=0, w=10, factor=0.5` to an incomplete trailing group does not change
the value of `fitting_function`. -/
theorem fitting_function_pad_aux (x : ℝ) :
    ∀ p : List ℝ, p.length % 4 ≠ 0 →
      fitting_function x p =
        fitting_function x
          (p ++ List.drop (p.length % 4) ([30, 0, 10, 0.5] : List ℝ))
  | [], h => absurd (by simp) h
  | [a], _ => by
      norm_num [fitting_function, pV_call, initial_GaussToLoretnz_ratio]
  | [a, b], _ => by
      norm_num [fitting_function, pV_call, initial_GaussToLoretnz_ratio]
  | [a, b, c], _ => by
      norm_num [fitting_function, pV_call, initial_GaussToLoretnz_ratio]
  | a :: b :: c :: d :: rest, h => by
      have h' : rest.length % 4 ≠ 0 := by
        simp only [List.length_cons] at h
        omega
      rw [show (a :: b :: c :: d :: rest).length % 4 = rest.length % 4 by
        simp only [List.length_cons]; omega]
      simp only [List.cons_append, fitting_function]
      exact congrArg (fun t => pV x a b c d + t)
        (fitting_function_pad_aux x rest h')

/-- C10: a parameter vector whose length is not a multiple of 4 is not
rejected: its trailing incomplete group is evaluated as a `pV` peak whose
missing arguments take the defaults `h=30, x0=0, w=10, factor=0.5`, exactly as
if the vector had been completed with those defaults. -/
theorem fitting_function_incomplete_defaults (x : ℝ) (p : List ℝ)
    (h : p.length % 4 ≠ 0) :
    fitting_function x p =
      fitting_function x
        (p ++ List.drop (p.length % 4) ([30, 0, 10, 0.5] : List ℝ)) :=
  fitting_function_pad_aux x p h

/-- Witness for C10 at `p = [5]`, `x = 0`. -/
theorem fitting_function_incomplete_defaults_witness :
    ([5] : List ℝ).length % 4 ≠ 0 ∧
      fitting_function 0 [5] =
        fitting_function 0
          (([5] : List ℝ) ++ List.drop (([5] : List ℝ).length % 4)
            ([30, 0, 10, 0.5] : List ℝ)) :=
  ⟨by norm_num, fitting_function_incomplete_defaults 0 [5] (by norm_num)⟩

/-- Helper: splitting off an incomplete trailing group: the complete quadruples
are summed as usual and the trailing group is passed to `pV` with defaulted
missing arguments. -/
theorem fitting_function_split_aux (x : ℝ) :
    ∀ p1 : List ℝ, p1.length % 4 = 0 → ∀ q : List ℝ, q.length < 4 → q ≠ [] →
      fitting_function x (p1 ++ q) = fitting_function x p1 + pV_call x q
  | [], _, q, hq, hne => by
      match q with
      | [] => exact absurd rfl hne
      | [a] => simp [fitting_function, pV_call]
      | [a, b] => simp [fitting_function, pV_call]
      | [a, b, c] => simp [fitting_function, pV_call]
      | a :: b :: c :: d :: t => simp only [List.length_cons] at hq; omega
  | [a], h, _, _, _ => by simp [List.length] at h
  | [a, b], h, _, _, _ => by simp [List.length] at h
  | [a, b, c], h, _, _, _ => by simp [List.length] at h
  | a :: b :: c :: d :: rest, h, q, hq, hne => by
      have h' : rest.length % 4 = 0 := by
        simp only [List.length_cons] at h
        omega
      simp only [List.cons_append, fitting_function, List.append_eq]
      rw [fitting_function_split_aux x rest h' q hq hne]
      ring

/-- C3 counterexample: a parameter vector of length 1 (`1 % 4 ≠ 0`) does not
make the model fail: `fitting_function(0, 5)` evaluates to the well-defined,
strictly positive value `pV(0, 5)`; no `DimensionMismatchError` (or any other
validation) exists in the code. -/
theorem fit_no_dimension_check_counterexample :
    fitting_function 0 [5] = pV 0 5 0 10 initial_GaussToLoretnz_ratio ∧
      0 < pV 0 5 0 10 initial_GaussToLoretnz_ratio := by
  refine ⟨rfl, ?_⟩
  have hπ : (0 : ℝ) < Real.pi := Real.pi_pos
  have hl : (0 : ℝ) < Real.log 2 := Real.log_pos one_lt_two
  have hs : 0 < Real.sqrt (Real.pi * Real.log 2) :=
    Real.sqrt_pos.mpr (mul_pos hπ hl)
  have hs2 : 0 < Real.sqrt (Real.log 2 / Real.pi) :=
    Real.sqrt_pos.mpr (div_pos hl hπ)
  have hG : 0 < Gauss 0 0 10 := by
    unfold Gauss
    have := Real.exp_pos (-(4 * Real.log 2 / (10 : ℝ) ^ 2) * ((0 : ℝ) - 0) ^ 2)
    nlinarith
  have hL : 0 < Lorentz 0 0 10 := by
    unfold Lorentz
    apply div_pos (mul_pos (one_div_pos.mpr hπ) (by norm_num))
    norm_num
  have hI : 0 < intensity 5 10 initial_GaussToLoretnz_ratio := by
    unfold intensity initial_GaussToLoretnz_ratio
    apply div_pos (by nlinarith) (by nlinarith)
  unfold pV
  apply mul_pos hI
  unfold initial_GaussToLoretnz_ratio
  nlinarith [hG, hL]

/-- C3 amended: `fitting_function` performs no dimension validation: a
parameter vector made of complete quadruples `p1` followed by a non-empty
incomplete trailing group `q` evaluates to the sum over the quadruples plus
the trailing group passed to `pV` with its missing arguments defaulted. -/
theorem fitting_function_no_dimension_error (x : ℝ) (p1 q : List ℝ)
    (h1 : p1.length % 4 = 0) (hq : q.length < 4) (hne : q ≠ []) :
    fitting_function x (p1 ++ q) = fitting_function x p1 + pV_call x q :=
  fitting_function_split_aux x p1 h1 q hq hne

/-- Witness for the amended C3 with `p1 = [1, 2, 3, 4]`, `q = [5]`, `x = 0`. -/
theorem fitting_function_no_dimension_error_witness :
    (([1, 2, 3, 4] : List ℝ).length % 4 = 0 ∧ ([5] : List ℝ).length < 4 ∧
        ([5] : List ℝ) ≠ []) ∧
      fitting_function 0 (([1, 2, 3, 4] : List ℝ) ++ [5]) =
        fitting_function 0 [1, 2, 3, 4] + pV_call 0 [5] :=
  ⟨⟨by norm_num, by norm_num, by simp⟩,
    fitting_function_no_dimension_error 0 [1, 2, 3, 4] [5]
      (by norm_num) (by norm_num) (by simp)⟩

/-- C4 counterexample: `pV` does not validate its width argument: at the
degenerate width `w = -1` the call `pV(0, 1, 0, -1, 0)` returns the finite
value `1` instead of failing. -/
theorem pV_negative_width_counterexample : pV 0 1 0 (-1) 0 = 1 := by
  have hπ : Real.pi ≠ 0 := Real.pi_ne_zero
  simp only [pV, intensity, Gauss, Lorentz, zero_mul, add_zero, mul_zero,
    sub_zero, one_mul, sub_self, zero_add]
  norm_num
  field_simp
  ring

/-- C4 amended: `pV` applies its defining formula to any width without a
guard; the profile is an even function of the width, so a negative width
silently yields the same finite curve as its absolute value rather than an
error. -/
theorem pV_even_in_width (x h x0 w factor : ℝ) :
    pV x h x0 (-w) factor = pV x h x0 w factor := by
  unfold pV intensity Gauss Lorentz
  rw [show (-w) ^ 2 = w ^ 2 from neg_sq w]
  ring

/-- Helper: entry `i` of the upper-bound array, for `i` in range. -/
theorem upper_bounds_getD (x_size : ℝ) (params : List ℝ) (i : ℕ)
    (h : i < params.length) :
    (upper_bounds x_size params).getD i 0 =
      (if i % 4 = 0 then params.getD i 0 * 1.32
       else if i % 4 = 1 then params.getD i 0 + 2 * x_size
       else if i % 4 = 2 then params.getD i 0 * 10 else 1) := by
  have h' : i < (upper_bounds x_size params).length := by
    simpa [upper_bounds] using h
  rw [List.getD_eq_get _ _ h', List.getD_eq_get _ _ h]
  unfold upper_bounds
  rw [List.get_mapIdx _ _ i h]

/-- Helper: entry `i` of the lower-bound array, for `i` in range. -/
theorem lower_bounds_getD (x_size : ℝ) (params : List ℝ) (i : ℕ)
    (h : i < params.length) :
    (lower_bounds x_size params).getD i 0 =
      (if i % 4 = 0 then params.getD i 0 * 0.75
       else if i % 4 = 1 then params.getD i 0 - 2 * x_size
       else if i % 4 = 2 then params.getD i 0 * 0.5 else 0) := by
  have h' : i < (lower_bounds x_size params).length := by
    simpa [lower_bounds] using h
  rw [List.getD_eq_get _ _ h', List.getD_eq_get _ _ h]
  unfold lower_bounds
  rw [List.get_mapIdx _ _ i h]

/-- C2: for every initial parameter vector and every complete quadruple `j` in
it, the derived bounds are: height in `[0.75·h, 1.32·h]`, center in
`[x0 − 2·x_size, x0 + 2·x_size]` with the single shared
`x_size = set_size(vmax, vmin, 70) = (vmax − vmin)/70`, width in
`[0.5·w, 10·w]`, and shape ratio in `[0, 1]`. -/
theorem bounds_derivation_per_peak (params : List ℝ) (vmax vmin : ℝ) (j : ℕ)
    (hj : 4 * j + 3 < params.length) :
    (lower_bounds (set_size vmax vmin 70) params).getD (4 * j) 0 =
        0.75 * params.getD (4 * j) 0 ∧
      (upper_bounds (set_size vmax vmin 70) params).getD (4 * j) 0 =
        1.32 * params.getD (4 * j) 0 ∧
      (lower_bounds (set_size vmax vmin 70) params).getD (4 * j + 1) 0 =
        params.getD (4 * j + 1) 0 - 2 * set_size vmax vmin 70 ∧
      (upper_bounds (set_size vmax vmin 70) params).getD (4 * j + 1) 0 =
        params.getD (4 * j + 1) 0 + 2 * set_size vmax vmin 70 ∧
      (lower_bounds (set_size vmax vmin 70) params).getD (4 * j + 2) 0 =
        0.5 * params.getD (4 * j + 2) 0 ∧
      (upper_bounds (set_size vmax vmin 70) params).getD (4 * j + 2) 0 =
        10 * params.getD (4 * j + 2) 0 ∧
      (lower_bounds (set_size vmax vmin 70) params).getD (4 * j + 3) 0 = 0 ∧
      (upper_bounds (set_size vmax vmin 70) params).getD (4 * j + 3) 0 = 1 := by
  have m0 : (4 * j) % 4 = 0 := by omega
  have m1 : (4 * j + 1) % 4 = 1 := by omega
  have m2 : (4 * j + 2) % 4 = 2 := by omega
  have m3 : (4 * j + 3) % 4 = 3 := by omega
  have b0 : 4 * j < params.length := by omega
  have b1 : 4 * j + 1 < params.length := by omega
  have b2 : 4 * j + 2 < params.length := by omega
  refine ⟨?_, ?_, ?_, ?_, ?_, ?_, ?_, ?_⟩
  · rw [lower_bounds_getD _ _ _ b0]; simp [m0]; ring
  · rw [upper_bounds_getD _ _ _ b0]; simp [m0]; ring
  · rw [lower_bounds_getD _ _ _ b1]; simp [m1]
  · rw [upper_bounds_getD _ _ _ b1]; simp [m1]
  · rw [lower_bounds_getD _ _ _ b2]; simp [m2]; ring
  · rw [upper_bounds_getD _ _ _ b2]; simp [m2]; ring
  · rw [lower_bounds_getD _ _ _ hj]; simp [m3]
  · rw [upper_bounds_getD _ _ _ hj]; simp [m3]

/-- Witness for C2 with `params = [10, 20, 30, 40, 50, 60, 70, 80]`, data
range `[0, 140]` (so `x_size = 2`), peak `j = 1`. -/
theorem bounds_derivation_per_peak_witness :
    4 * 1 + 3 < ([10, 20, 30, 40, 50, 60, 70, 80] : List ℝ).length ∧
      ((lower_bounds (set_size 140 0 70) [10, 20, 30, 40, 50, 60, 70, 80]).getD
          (4 * 1) 0 =
        0.75 * ([10, 20, 30, 40, 50, 60, 70, 80] : List ℝ).getD (4 * 1) 0 ∧
      (upper_bounds (set_size 140 0 70) [10, 20, 30, 40, 50, 60, 70, 80]).getD
          (4 * 1) 0 =
        1.32 * ([10, 20, 30, 40, 50, 60, 70, 80] : List ℝ).getD (4 * 1) 0 ∧
      (lower_bounds (set_size 140 0 70) [10, 20, 30, 40, 50, 60, 70, 80]).getD
          (4 * 1 + 1) 0 =
        ([10, 20, 30, 40, 50, 60, 70, 80] : List ℝ).getD (4 * 1 + 1) 0 -
          2 * set_size 140 0 70 ∧
      (upper_bounds (set_size 140 0 70) [10, 20, 30, 40, 50, 60, 70, 80]).getD
          (4 * 1 + 1) 0 =
        ([10, 20, 30, 40, 50, 60, 70, 80] : List ℝ).getD (4 * 1 + 1) 0 +
          2 * set_size 140 0 70 ∧
      (lower_bounds (set_size 140 0 70) [10, 20, 30, 40, 50, 60, 70, 80]).getD
          (4 * 1 + 2) 0 =
        0.5 * ([10, 20, 30, 40, 50, 60, 70, 80] : List ℝ).getD (4 * 1 + 2) 0 ∧
      (upper_bounds (set_size 140 0 70) [10, 20, 30, 40, 50, 60, 70, 80]).getD
          (4 * 1 + 2) 0 =
        10 * ([10, 20, 30, 40, 50, 60, 70, 80] : List ℝ).getD (4 * 1 + 2) 0 ∧
      (lower_bounds (set_size 140 0 70) [10, 20, 30, 40, 50, 60, 70, 80]).getD
          (4 * 1 + 3) 0 = 0 ∧
      (upper_bounds (set_size 140 0 70) [10, 20, 30, 40, 50, 60, 70, 80]).getD
          (4 * 1 + 3) 0 = 1) :=
  ⟨by norm_num,
    bounds_derivation_per_peak [10, 20, 30, 40, 50, 60, 70, 80] 140 0 1
      (by norm_num)⟩

/-- C5 counterexample: with a negative initial height the bound pair inverts:
for `params = [-1, 0, 1, 0]` and `x_size = 1` the lower-bound array starts
with `-0.75` while the upper-bound array starts with `-1.32`, so the arrays
are not elementwise ordered. -/
theorem bounds_pair_not_sorted_counterexample :
    ¬ List.Forall₂ (· ≤ ·) (lower_bounds 1 ([-1, 0, 1, 0] : List ℝ))
        (upper_bounds 1 ([-1, 0, 1, 0] : List ℝ)) := by
  intro hc
  simp only [lower_bounds, upper_bounds, List.mapIdx_cons, List.mapIdx_nil,
    List.forall₂_cons] at hc
  norm_num at hc

/-- C5 amended: the bounds pair is elementwise ordered (`lower ≤ upper` at
every index) provided the characteristic scale is nonnegative and every
initial height and width is nonnegative; a negative height or width inverts
its pair, since the code never re-sorts. -/
theorem bounds_pair_sorted_of_nonneg (x_size : ℝ) (params : List ℝ)
    (hxs : 0 ≤ x_size)
    (hh : ∀ i : ℕ, ∀ hi : i < params.length, i % 4 = 0 → 0 ≤ params.get ⟨i, hi⟩)
    (hw : ∀ i : ℕ, ∀ hi : i < params.length, i % 4 = 2 → 0 ≤ params.get ⟨i, hi⟩) :
    List.Forall₂ (· ≤ ·) (lower_bounds x_size params)
      (upper_bounds x_size params) := by
  rw [List.forall₂_iff_get]
  constructor
  · simp [lower_bounds, upper_bounds]
  · intro i h₁ h₂
    have hip : i < params.length := by simpa [lower_bounds] using h₁
    unfold lower_bounds upper_bounds
    rw [List.get_mapIdx _ _ i hip, List.get_mapIdx _ _ i hip]
    by_cases h0 : i % 4 = 0
    · rw [if_pos h0, if_pos h0]
      have := hh i hip h0
      nlinarith
    · rw [if_neg h0, if_neg h0]
      by_cases hc1 : i % 4 = 1
      · rw [if_pos hc1, if_pos hc1]
        linarith
      · rw [if_neg hc1, if_neg hc1]
        by_cases hc2 : i % 4 = 2
        · rw [if_pos hc2, if_pos hc2]
          have := hw i hip hc2
          nlinarith
        · rw [if_neg hc2, if_neg hc2]
          norm_num

/-- Witness for the amended C5 with `x_size = 1`,
`params = [2, -5, 3, 7]` (nonnegative height and width). -/
theorem bounds_pair_sorted_of_nonneg_witness :
    ((0 : ℝ) ≤ 1 ∧
        (∀ i : ℕ, ∀ hi : i < ([2, -5, 3, 7] : List ℝ).length, i % 4 = 0 →
          0 ≤ ([2, -5, 3, 7] : List ℝ).get ⟨i, hi⟩) ∧
        (∀ i : ℕ, ∀ hi : i < ([2, -5, 3, 7] : List ℝ).length, i % 4 = 2 →
          0 ≤ ([2, -5, 3, 7] : List ℝ).get ⟨i, hi⟩)) ∧
      List.Forall₂ (· ≤ ·) (lower_bounds 1 ([2, -5, 3, 7] : List ℝ))
        (upper_bounds 1 ([2, -5, 3, 7] : List ℝ)) := by
  have hh : ∀ i : ℕ, ∀ hi : i < ([2, -5, 3, 7] : List ℝ).length, i % 4 = 0 →
      0 ≤ ([2, -5, 3, 7] : List ℝ).get ⟨i, hi⟩ := by
    intro i hi h0
    simp only [List.length_cons, List.length_nil] at hi
    interval_cases i <;> simp_all <;> norm_num
  have hw : ∀ i : ℕ, ∀ hi : i < ([2, -5, 3, 7] : List ℝ).length, i % 4 = 2 →
      0 ≤ ([2, -5, 3, 7] : List ℝ).get ⟨i, hi⟩ := by
    intro i hi h2
    simp only [List.length_cons, List.length_nil] at hi
    interval_cases i <;> simp_all <;> norm_num
  exact ⟨⟨by norm_num, hh, hw⟩,
    bounds_pair_sorted_of_nonneg 1 [2, -5, 3, 7] (by norm_num) hh hw⟩

/-- C9: the reported standard error of parameter `j` is the square root of the
`j`-th diagonal entry of the covariance matrix returned by the optimizer, and
the script requests the covariance without absolute-sigma scaling
(`absolute_sigma=False`, folding the residual variance into the estimate). -/
theorem fitting_err_is_sqrt_diag :
    (∀ (b : ℕ → ℕ → ℝ) (j : ℕ), fitting_err b j = Real.sqrt (b j j)) ∧
      fit_absolute_sigma = false :=
  ⟨fun _ _ => rfl, rfl⟩

end

end SMfit
